import Mathlib

/-!
Verification of the geometric transformation core of `src/dia/Element.mjs`
(position / translate / size / resize / rotate / angle / getBBox / fitEmbeds).

The element state and all non-trigonometric operations are embedded over the
rational numbers.  The rotation-aware anchored resize path uses real-valued
trigonometry and is embedded separately over the real numbers further below.
External collaborators that are part of the repository but not under `src`
(the geometry kernel in `src/g`, the graph, `util.normalizeSides`) are
modelled from the specification; each such definition carries a doc comment
saying so.
-/

namespace Joint

/-- A 2-D point with rational coordinates, as stored in the position attribute. -/
structure Pt where
  x : ℚ
  y : ℚ
deriving DecidableEq

/-- A size record, as stored in the size attribute. -/
structure Sz where
  width : ℚ
  height : ℚ
deriving DecidableEq

/-- An axis-aligned rectangle, used for bounding boxes and restricted areas. -/
structure Rectangle where
  x : ℚ
  y : ℚ
  width : ℚ
  height : ℚ
deriving DecidableEq

/-- The attribute state of one element: identity, position, size, stored angle. -/
structure ElData where
  id : ℕ
  position : Pt
  size : Sz
  angle : ℚ
deriving DecidableEq

/-- An element together with its embedded subtree, as resolved through the
graph (`getEmbeddedCells`).  The embeds list holds the direct children. -/
inductive ElTree where
  | node (data : ElData) (embeds : List ElTree)

/-- The own attribute data of the root element of a subtree. -/
def rootData : ElTree → ElData
  | .node d _ => d

/-- The direct embedded children of the root element. -/
def embedsOf : ElTree → List ElTree
  | .node _ e => e

mutual

/-- All element data of a subtree, root first (preorder). -/
def treeData : ElTree → List ElData
  | .node d embeds => d :: forestData embeds

/-- All element data of a list of subtrees, in order. -/
def forestData : List ElTree → List ElData
  | [] => []
  | t :: ts => treeData t ++ forestData ts

end

/-- The unrotated bounding box `(position.x, position.y, size.width, size.height)`
of a single element, as built by `getBBox` without `deep`. -/
def rectOf (d : ElData) : Rectangle :=
  ⟨d.position.x, d.position.y, d.size.width, d.size.height⟩

/-- Modelled from the spec: the geometry union of two axis-aligned rectangles,
as used by the external `graph.getCellsBBox` (union box). -/
def rectUnion (a b : Rectangle) : Rectangle :=
  let x := min a.x b.x
  let y := min a.y b.y
  ⟨x, y, max (a.x + a.width) (b.x + b.width) - x, max (a.y + a.height) (b.y + b.height) - y⟩

/-- Modelled from the spec: `graph.getCellsBBox` — the union bounding box of a
list of cells (the empty list never occurs at call sites). -/
def bboxUnion : List Rectangle → Rectangle
  | [] => ⟨0, 0, 0, 0⟩
  | r :: rs => rs.foldl rectUnion r

/-- The deep bounding box of an element and its whole embedded subtree:
`getBBox({deep: true})` on an attached element, which delegates to
`graph.getCellsBBox` over the element and all embedded descendants. -/
def deepBBox (t : ElTree) : Rectangle :=
  bboxUnion ((treeData t).map rectOf)

/-- The options object threaded through `translate`; only fields that
`Element.translate` reads or writes are modelled.  Absent fields are `none`
(respectively `false` for the boolean `transition` flag). -/
structure TranslateOpt where
  translateBy : Option ℕ
  restrictedArea : Option Rectangle
  transition : Bool
  tx : Option ℚ
  ty : Option ℚ
deriving DecidableEq

/-- An options object with every modelled field absent. -/
def emptyOpt : TranslateOpt := ⟨none, none, false, none, none⟩

/-- Observable effects on the attribute store and its collaborators: batch
brackets, change notifications from `set`, and hand-offs to the external
transition driver. -/
inductive Ev where
  | startBatch (label : String)
  | stopBatch (label : String)
  | setPosition (id : ℕ) (p : Pt)
  | transitionPosition (id : ℕ) (p : Pt)
  | setPosSize (id : ℕ) (p : Pt) (s : Sz)
deriving DecidableEq

/-- The restricted-area recalculation of the translation deltas, source lines
100-127: when a restricted area is given and the updated `translateBy` equals
the id of this element, the candidate position is clamped so that the deep
bounding box of the subtree stays inside the restricted rectangle. -/
def restrictDeltas (t : ElTree) (tx ty : ℚ) (opt : TranslateOpt) : ℚ × ℚ :=
  match opt.restrictedArea with
  | none => (tx, ty)
  | some ra =>
    if opt.translateBy = some (rootData t).id then
      let position := (rootData t).position
      let bbox := deepBBox t
      let dx := position.x - bbox.x
      let dy := position.y - bbox.y
      let x := max (ra.x + dx) (min (ra.x + ra.width + dx - bbox.width) (position.x + tx))
      let y := max (ra.y + dy) (min (ra.y + ra.height + dy - bbox.height) (position.y + ty))
      (x - position.x, y - position.y)
    else (tx, ty)

mutual

/-- `Element.translate` (source lines 84-158) acting on an element with its
embedded subtree.  Returns the updated subtree, the options object after the
in-place mutations the source performs on it, and the emitted effects.  The
zero-delta early return happens before any mutation; otherwise `translateBy`
defaults to the own id, the deltas are clamped against a restricted area,
`opt.tx` and `opt.ty` record the applied deltas, and the new position is
either handed to the transition driver or set inside a translate batch, in
both cases recursing into every embedded child with the same deltas and the
same (shared, already mutated) options object. -/
def translate (t : ElTree) (tx ty : ℚ) (opt : TranslateOpt) :
    ElTree × TranslateOpt × List Ev :=
  match t with
  | .node d embeds =>
    if tx = 0 ∧ ty = 0 then (.node d embeds, opt, [])
    else
      let opt1 : TranslateOpt := { opt with translateBy := some (opt.translateBy.getD d.id) }
      let td := restrictDeltas (.node d embeds) tx ty opt1
      let translatedPosition : Pt := ⟨d.position.x + td.1, d.position.y + td.2⟩
      let opt2 : TranslateOpt := { opt1 with tx := some td.1, ty := some td.2 }
      if opt2.transition then
        let fr := translateForest embeds td.1 td.2 opt2
        (.node d fr.1, fr.2.1, Ev.transitionPosition d.id translatedPosition :: fr.2.2)
      else
        let fr := translateForest embeds td.1 td.2 opt2
        (.node { d with position := translatedPosition } fr.1, fr.2.1,
          Ev.startBatch "translate" :: Ev.setPosition d.id translatedPosition ::
            (fr.2.2 ++ [Ev.stopBatch "translate"]))

/-- Sequential recursion of `translate` over the embedded cells (the `invoke`
calls on source lines 147 and 153), threading the shared options object. -/
def translateForest (ts : List ElTree) (tx ty : ℚ) (opt : TranslateOpt) :
    List ElTree × TranslateOpt × List Ev :=
  match ts with
  | [] => ([], opt, [])
  | t :: rest =>
    let r1 := translate t tx ty opt
    let r2 := translateForest rest tx ty r1.2.1
    (r1.1 :: r2.1, r2.2.1, r1.2.2 ++ r2.2.2)

end

/-- `Element.getBBox` (source lines 378-397): with `deep` and an attached
element, the union box of the element and all embedded descendants; otherwise
the own unrotated rectangle. -/
def getBBox (attached : Bool) (deep : Bool) (t : ElTree) : Rectangle :=
  if deep && attached then deepBBox t else rectOf (rootData t)

/-- JS truncation toward zero, as performed by the `%` operator on the
quotient. -/
def jsTrunc (q : ℚ) : ℤ :=
  if 0 ≤ q then ⌊q⌋ else ⌈q⌉

/-- The JS remainder operator `a % m`: truncated-division remainder, carrying
the sign of the dividend. -/
def jsMod (a m : ℚ) : ℚ :=
  a - m * ((jsTrunc (a / m) : ℤ) : ℚ)

/-- Modelled from the spec: the geometry-kernel `normalizeAngle`, which
normalizes an angle in degrees into the half-open range [0, 360). -/
def normalizeAngle (a : ℚ) : ℚ :=
  a - 360 * ((⌊a / 360⌋ : ℤ) : ℚ)

/-- `Element.rotate` without an origin (source line 368): the stored angle
becomes either the literal argument (absolute) or the JS remainder
`(current + a) % 360`. -/
def rotate (current a : ℚ) (absolute : Bool) : ℚ :=
  if absolute then a else jsMod (current + a) 360

/-- `Element.angle` (source lines 374-376): the stored angle, normalized by
the geometry kernel on read. -/
def angle (stored : ℚ) : ℚ :=
  normalizeAngle stored

/-- The options read by the position accessor. -/
structure PosOpt where
  parentRelative : Bool
  deep : Bool
deriving DecidableEq

/-- The message of the only explicit error the source throws. -/
def unattachedError : String := "Element must be part of a graph."

/-- What the position setter does after resolving its options: a direct set
of the position attribute, or a redirection into translate with the delta
from the current position. -/
inductive PosSetResult where
  | set (p : Pt)
  | deepTranslate (tx ty : ℚ)
deriving DecidableEq

/-- `Element.position` getter path (source lines 39-56 and 74-81).
`parentPos` is the position of the parent cell when the element has a parent
that is not a link, and `none` otherwise. -/
def positionGet (attached : Bool) (parentPos : Option Pt) (current : Pt)
    (opt : PosOpt) : Except String Pt :=
  if opt.parentRelative then
    if !attached then .error unattachedError
    else
      let pp := parentPos.getD ⟨0, 0⟩
      .ok ⟨current.x - pp.x, current.y - pp.y⟩
  else .ok current

/-- `Element.position` setter path (source lines 39-72): `parentRelative`
requires a graph and offsets the arguments by the parent position, `deep`
redirects into translate with the position delta, and otherwise the position
attribute is overwritten directly. -/
def positionSet (attached : Bool) (parentPos : Option Pt) (current : Pt)
    (x y : ℚ) (opt : PosOpt) : Except String PosSetResult :=
  if opt.parentRelative && !attached then .error unattachedError
  else
    let pp := parentPos.getD ⟨0, 0⟩
    let x2 := if opt.parentRelative then x + pp.x else x
    let y2 := if opt.parentRelative then y + pp.y else y
    if opt.deep then .ok (.deepTranslate (x2 - current.x) (y2 - current.y))
    else .ok (.set ⟨x2, y2⟩)

/-- Per-side padding record. -/
structure Sides where
  top : ℚ
  right : ℚ
  bottom : ℚ
  left : ℚ

/-- Modelled from the spec: `util.normalizeSides` — a single number applies
to all four sides uniformly, and absent padding is zero. -/
def normalizeSides (p : Option ℚ) : Sides :=
  let v := p.getD 0
  ⟨v, v, v, v⟩

/-- Modelled from the spec: `g.Rect.moveAndExpand` — offsets the origin and
expands the dimensions of a rectangle. -/
def moveAndExpand (r : Rectangle) (dx dy dw dh : ℚ) : Rectangle :=
  ⟨r.x + dx, r.y + dy, r.width + dw, r.height + dh⟩

/-- The options read by fitEmbeds. -/
structure FitOpt where
  deep : Bool
  padding : Option ℚ
deriving DecidableEq

mutual

/-- `Element.fitEmbeds` (source lines 303-345): requires a graph, is a no-op
without embedded cells, optionally recurses bottom-up with `deep`, and then
sets the own position and size to the padded union box of the direct
children, inside a fit-embeds batch. -/
def fitEmbeds (attached : Bool) (opt : FitOpt) : ElTree → Except String (ElTree × List Ev)
  | .node d embeds =>
    if !attached then .error unattachedError
    else if 0 < embeds.length then
      match (if opt.deep then fitEmbedsForest attached opt embeds else .ok (embeds, [])) with
      | .error e => .error e
      | .ok (embeds2, childEvs) =>
        let bbox := bboxUnion (embeds2.map (fun c => rectOf (rootData c)))
        let padding := normalizeSides opt.padding
        let bbox2 := moveAndExpand bbox (-padding.left) (-padding.top)
          (padding.right + padding.left) (padding.bottom + padding.top)
        let p : Pt := ⟨bbox2.x, bbox2.y⟩
        let s : Sz := ⟨bbox2.width, bbox2.height⟩
        .ok (.node { d with position := p, size := s } embeds2,
          Ev.startBatch "fit-embeds" :: childEvs ++
            [Ev.setPosSize d.id p s, Ev.stopBatch "fit-embeds"])
    else .ok (.node d embeds, [])

/-- Recursive application of fitEmbeds to every embedded child (`deep`). -/
def fitEmbedsForest (attached : Bool) (opt : FitOpt) :
    List ElTree → Except String (List ElTree × List Ev)
  | [] => .ok ([], [])
  | t :: ts =>
    match fitEmbeds attached opt t with
    | .error e => .error e
    | .ok (t2, evs) =>
      match fitEmbedsForest attached opt ts with
      | .error e => .error e
      | .ok (ts2, evs2) => .ok (t2 :: ts2, evs ++ evs2)

end

/-- Example element: a single element at (0, 0) of size 10 by 10. -/
def exSingle : ElTree := .node ⟨0, ⟨0, 0⟩, ⟨10, 10⟩, 0⟩ []

/-- Example restricted area of width and height 15 at the origin. -/
def exArea : Rectangle := ⟨0, 0, 15, 15⟩

/-- Example options carrying only a restricted area. -/
def exAreaOpt : TranslateOpt := ⟨none, some exArea, false, none, none⟩

/-- Example element outside `exArea`: a single element at (100, 0). -/
def exOutside : ElTree := .node ⟨0, ⟨100, 0⟩, ⟨10, 10⟩, 0⟩ []

/-- Example element with one embedded child: parent 0 at (0, 0), child 1 at
(2, 3). -/
def exPair : ElTree := .node ⟨0, ⟨0, 0⟩, ⟨1, 1⟩, 0⟩ [.node ⟨1, ⟨2, 3⟩, ⟨1, 1⟩, 0⟩ []]

/-- Example options carrying only a transition request. -/
def exTransOpt : TranslateOpt := ⟨none, none, true, none, none⟩

/-! ### Real-valued geometry for the rotation-aware anchored resize

The anchored resize path (source lines 188-280) computes with trigonometry;
it is embedded over the real numbers.  Points are plain pairs of reals. -/

noncomputable section

/-- Modelled from the spec: the geometry-kernel rotation of a point `p` about
a center `o` by `ang` degrees, in screen coordinates (the y axis points
down, so a positive angle takes the positive x direction toward negative y). -/
def rotateR (p o : ℝ × ℝ) (ang : ℝ) : ℝ × ℝ :=
  (o.1 + Real.cos (ang * Real.pi / 180) * (p.1 - o.1)
      + Real.sin (ang * Real.pi / 180) * (p.2 - o.2),
   o.2 - Real.sin (ang * Real.pi / 180) * (p.1 - o.1)
      + Real.cos (ang * Real.pi / 180) * (p.2 - o.2))

/-- Modelled from the spec: the geometry-kernel polar point construction
`Point.fromPolar(distance, angle, origin)` for a non-negative distance, in
the same screen coordinates (a positive angle decreases y). -/
def fromPolarR (r ang : ℝ) (o : ℝ × ℝ) : ℝ × ℝ :=
  (o.1 + r * Real.cos ang, o.2 - r * Real.sin ang)

/-- Modelled from the spec: the geometry-kernel angle normalization into the
half-open range [0, 360), over the reals. -/
def normalizeAngleR (a : ℝ) : ℝ :=
  a - 360 * ((⌊a / 360⌋ : ℤ) : ℝ)

/-- The direction-to-quadrant table of source lines 210-219. An unlisted
direction yields no quadrant (the JS lookup produces undefined). -/
def quadrantTable (d : String) : Option ℤ :=
  if d = "top-right" ∨ d = "right" then some 0
  else if d = "top-left" ∨ d = "top" then some 1
  else if d = "bottom-left" ∨ d = "left" then some 2
  else if d = "bottom-right" ∨ d = "bottom" then some 3
  else none

/-- The corner accessor selection of source line 233 on the rectangle with
origin `(x, y)`, width `w` and height `h`: quadrant 0 picks the bottom-left
corner, 1 the far corner, 2 the top-right corner, 3 the origin. -/
def cornerOf (x y w h : ℝ) (q : ℤ) : ℝ × ℝ :=
  if q = 0 then (x, y + h)
  else if q = 1 then (x + w, y + h)
  else if q = 2 then (x + w, y)
  else (x, y)

/-- `Element.resize` (source lines 182-291) acting on the position, size and
stored angle of one element.  Without a truthy direction the size is simply
overwritten.  With a recognized direction the height (respectively width) is
locked for horizontal (vertical) directions, the quadrant is looked up (and
shifted by the normalized angle under `absolute`), the designated corner of
the current box is rotated to its on-screen location, and the new origin is
reconstructed by the polar offset of the new half-diagonal; the element gets
the new size and this new origin.  A truthy direction absent from the table
makes the corner accessor undefined and the call fails (JS TypeError), which
is modelled as `none`. -/
def resize (pos size : ℝ × ℝ) (storedAngle width height : ℝ)
    (direction : Option String) (absolute : Bool) : Option ((ℝ × ℝ) × (ℝ × ℝ)) :=
  match direction with
  | none => some (pos, (width, height))
  | some d =>
    if d = "" then some (pos, (width, height))
    else
      let height2 := if d = "left" ∨ d = "right" then size.2 else height
      let width2 := if d = "top" ∨ d = "bottom" then size.1 else width
      let ang := normalizeAngleR storedAngle
      match quadrantTable d with
      | none => none
      | some q0 =>
        let q : ℤ := if absolute then (q0 + ⌊(ang + 45) / 90⌋) % 4 else q0
        let fixedPoint := cornerOf pos.1 pos.2 size.1 size.2 q
        let center : ℝ × ℝ := (pos.1 + size.1 / 2, pos.2 + size.2 / 2)
        let imageFixedPoint := rotateR fixedPoint center (-ang)
        let radius := Real.sqrt (width2 * width2 + height2 * height2) / 2
        let alpha := (q : ℝ) * (Real.pi / 2)
          + (if q % 2 = 0 then Real.arctan (height2 / width2) else Real.arctan (width2 / height2))
          - ang * Real.pi / 180
        let newCenter := fromPolarR radius alpha imageFixedPoint
        some ((newCenter.1 - width2 / 2, newCenter.2 - height2 / 2), (width2, height2))

end

/-- C7: `translate(0, 0)` is a strict no-op: the subtree is unchanged, the
options object is untouched, and no effect at all (no notification, no batch)
is emitted. -/
theorem translate_zero_is_noop (t : ElTree) (opt : TranslateOpt) :
    translate t 0 0 opt = (t, opt, []) := by
  cases t with
  | node d embeds => simp [translate]

/-- C9: on an element that is not attached to a graph, `getBBox({deep: true})`
does not fail and silently returns the own rectangle, identical to the
shallow `getBBox()` result. -/
theorem getBBox_deep_unattached_falls_back (t : ElTree) :
    getBBox false true t = getBBox false false t ∧
    getBBox false false t = rectOf (rootData t) := by
  exact ⟨rfl, rfl⟩

/-- The JS remainder by a positive modulus lies strictly between `-m` and `m`. -/
theorem jsMod_lt_of_pos (x m : ℚ) (hm : 0 < m) : -m < jsMod x m ∧ jsMod x m < m := by
  have hm0 : m ≠ 0 := ne_of_gt hm
  have hx : m * (x / m) = x := by field_simp
  unfold jsMod jsTrunc
  by_cases h : 0 ≤ x / m
  · rw [if_pos h]
    have h1 : ((⌊x / m⌋ : ℤ) : ℚ) ≤ x / m := Int.floor_le (x / m)
    have h2 : x / m < (⌊x / m⌋ : ℤ) + 1 := Int.lt_floor_add_one (x / m)
    constructor <;> nlinarith
  · rw [if_neg h]
    have h1 : x / m ≤ ((⌈x / m⌉ : ℤ) : ℚ) := Int.le_ceil (x / m)
    have h2 : ((⌈x / m⌉ : ℤ) : ℚ) < x / m + 1 := Int.ceil_lt_add_one (x / m)
    constructor <;> nlinarith

/-- The spec-modelled angle normalization lands in the half-open range
[0, 360). -/
theorem normalizeAngle_mem_Ico (a : ℚ) : 0 ≤ normalizeAngle a ∧ normalizeAngle a < 360 := by
  unfold normalizeAngle
  have h1 : ((⌊a / 360⌋ : ℤ) : ℚ) ≤ a / 360 := Int.floor_le (a / 360)
  have h2 : a / 360 < (⌊a / 360⌋ : ℤ) + 1 := Int.lt_floor_add_one (a / 360)
  constructor <;> nlinarith

/-- C2 counterexample: with both deltas zero the early return of translate
fires before any clamping, so an element standing outside the restricted
area keeps its position although the clamp formula of the claim would move
it to x = 5. -/
theorem translate_restrictedArea_zero_delta_cex :
    (rootData (translate exOutside 0 0 exAreaOpt).1).position.x = 100 ∧
    max (exArea.x + ((rootData exOutside).position.x - (deepBBox exOutside).x))
      (min (exArea.x + exArea.width + ((rootData exOutside).position.x - (deepBBox exOutside).x)
          - (deepBBox exOutside).width)
        ((rootData exOutside).position.x + 0)) = 5 ∧
    (100 : ℚ) ≠ 5 := by
  refine ⟨?_, ?_, by norm_num⟩
  · norm_num [translate, exOutside, rootData]
  · norm_num [exOutside, exArea, deepBBox, treeData, forestData, rectOf, bboxUnion, rootData]

/-- C2 (amended): for a non-zero, non-transitioned translate with a
restricted area whose `translateBy` is absent or equal to the own id, the new
position is the candidate position clamped between
`restrictedArea origin + offset` and
`restrictedArea far side + offset - deep bbox extent`, where the offset is
the difference between the own origin and the deep-bbox origin; in
particular an element with deep bbox (0,0,10,10) at (0,0) translated by
(20,0) inside the area (0,0,15,15) ends at (5,0). -/
theorem translate_restrictedArea_clamps :
    (∀ (t : ElTree) (tx ty : ℚ) (opt : TranslateOpt) (ra : Rectangle),
      opt.restrictedArea = some ra →
      (opt.translateBy = none ∨ opt.translateBy = some (rootData t).id) →
      opt.transition = false →
      ¬(tx = 0 ∧ ty = 0) →
      (rootData (translate t tx ty opt).1).position =
        ⟨max (ra.x + ((rootData t).position.x - (deepBBox t).x))
           (min (ra.x + ra.width + ((rootData t).position.x - (deepBBox t).x) - (deepBBox t).width)
             ((rootData t).position.x + tx)),
         max (ra.y + ((rootData t).position.y - (deepBBox t).y))
           (min (ra.y + ra.height + ((rootData t).position.y - (deepBBox t).y) - (deepBBox t).height)
             ((rootData t).position.y + ty))⟩) ∧
    (rootData (translate exSingle 20 0 exAreaOpt).1).position = (⟨5, 0⟩ : Pt) := by
  constructor
  · intro t tx ty opt ra hra htb htr hnz
    cases t with
    | node d embeds =>
      have htb2 : opt.translateBy.getD d.id = d.id := by
        rcases htb with h | h
        · rw [h]; rfl
        · rw [h]; rfl
      simp only [translate, hnz, if_false, restrictDeltas, htb2, hra, htr, rootData]
      simp only [if_true, Bool.false_eq_true, if_false, rootData]
      simp only [Pt.mk.injEq]
      constructor <;> ring
  · norm_num [translate, exSingle, exAreaOpt, exArea, restrictDeltas, deepBBox, treeData,
      forestData, rectOf, bboxUnion, rootData, translateForest]

/-- C2 witness: the amended clamp statement applied to the concrete
restricted-area example. -/
theorem translate_restrictedArea_clamps_witness :
    exAreaOpt.restrictedArea = some exArea ∧
    ¬((20 : ℚ) = 0 ∧ (0 : ℚ) = 0) ∧
    (rootData (translate exSingle 20 0 exAreaOpt).1).position =
      ⟨max (exArea.x + ((rootData exSingle).position.x - (deepBBox exSingle).x))
         (min (exArea.x + exArea.width + ((rootData exSingle).position.x - (deepBBox exSingle).x)
             - (deepBBox exSingle).width)
           ((rootData exSingle).position.x + 20)),
       max (exArea.y + ((rootData exSingle).position.y - (deepBBox exSingle).y))
         (min (exArea.y + exArea.height + ((rootData exSingle).position.y - (deepBBox exSingle).y)
             - (deepBBox exSingle).height)
           ((rootData exSingle).position.y + 0))⟩ :=
  ⟨rfl, by norm_num,
    translate_restrictedArea_clamps.1 exSingle 20 0 exAreaOpt exArea rfl (Or.inl rfl) rfl
      (by norm_num)⟩

mutual

/-- Without a restricted area and without a transition, translate shifts the
position of every element of the subtree by exactly the deltas, and leaves
the restrictedArea and transition options unchanged. -/
theorem translate_shift_tree (t : ElTree) (tx ty : ℚ) (opt : TranslateOpt)
    (hra : opt.restrictedArea = none) (htr : opt.transition = false)
    (hnz : ¬(tx = 0 ∧ ty = 0)) :
    (treeData (translate t tx ty opt).1).map (fun e => e.position)
      = (treeData t).map (fun e => (⟨e.position.x + tx, e.position.y + ty⟩ : Pt))
    ∧ (translate t tx ty opt).2.1.restrictedArea = none
    ∧ (translate t tx ty opt).2.1.transition = false := by
  cases t with
  | node d embeds =>
    have hfor := translate_shift_forest embeds tx ty
      { opt with translateBy := some (opt.translateBy.getD d.id), tx := some tx, ty := some ty }
      hra htr hnz
    simp only [hra, htr] at hfor
    simp only [translate, hnz, if_false, restrictDeltas, hra, htr, Bool.false_eq_true,
      treeData, List.map_cons]
    refine ⟨?_, hfor.2.1, hfor.2.2⟩
    rw [hfor.1]

/-- The forest version of `translate_shift_tree`, threading the options. -/
theorem translate_shift_forest (ts : List ElTree) (tx ty : ℚ) (opt : TranslateOpt)
    (hra : opt.restrictedArea = none) (htr : opt.transition = false)
    (hnz : ¬(tx = 0 ∧ ty = 0)) :
    (forestData (translateForest ts tx ty opt).1).map (fun e => e.position)
      = (forestData ts).map (fun e => (⟨e.position.x + tx, e.position.y + ty⟩ : Pt))
    ∧ (translateForest ts tx ty opt).2.1.restrictedArea = none
    ∧ (translateForest ts tx ty opt).2.1.transition = false := by
  cases ts with
  | nil => simp [translateForest, forestData, hra, htr]
  | cons t rest =>
    have h1 := translate_shift_tree t tx ty opt hra htr hnz
    have h2 := translate_shift_forest rest tx ty (translate t tx ty opt).2.1 h1.2.1 h1.2.2 hnz
    simp only [translateForest, forestData, List.map_append]
    exact ⟨by rw [h1.1, h2.1], h2.2.1, h2.2.2⟩

end

/-- C3: a plain non-zero translate (no options) shifts the own position and
the position of every embedded descendant by exactly the same deltas. -/
theorem translate_shifts_entire_subtree (t : ElTree) (tx ty : ℚ)
    (hnz : ¬(tx = 0 ∧ ty = 0)) :
    (treeData (translate t tx ty emptyOpt).1).map (fun e => e.position)
      = (treeData t).map (fun e => (⟨e.position.x + tx, e.position.y + ty⟩ : Pt)) :=
  (translate_shift_tree t tx ty emptyOpt rfl rfl hnz).1

/-- C3 witness: the subtree shift applied to the concrete two-element tree
with deltas (3, 4). -/
theorem translate_shifts_entire_subtree_witness :
    ¬((3 : ℚ) = 0 ∧ (4 : ℚ) = 0) ∧
    (treeData (translate exPair 3 4 emptyOpt).1).map (fun e => e.position)
      = (treeData exPair).map (fun e => (⟨e.position.x + 3, e.position.y + 4⟩ : Pt)) :=
  ⟨by norm_num, translate_shifts_entire_subtree exPair 3 4 (by norm_num)⟩

mutual

/-- With a transition requested (and no restricted area), translate leaves
every stored position unchanged and hands one transition per subtree element
to the external driver, because the shared options object retains its
transition flag when passed on to the embedded cells. -/
theorem translate_transition_tree (t : ElTree) (tx ty : ℚ) (opt : TranslateOpt)
    (htr : opt.transition = true) (hra : opt.restrictedArea = none)
    (hnz : ¬(tx = 0 ∧ ty = 0)) :
    (translate t tx ty opt).1 = t
    ∧ (translate t tx ty opt).2.2
        = (treeData t).map
            (fun e => Ev.transitionPosition e.id ⟨e.position.x + tx, e.position.y + ty⟩)
    ∧ (translate t tx ty opt).2.1.transition = true
    ∧ (translate t tx ty opt).2.1.restrictedArea = none := by
  cases t with
  | node d embeds =>
    have hfor := translate_transition_forest embeds tx ty
      { opt with translateBy := some (opt.translateBy.getD d.id), tx := some tx, ty := some ty }
      htr hra hnz
    simp only [htr, hra] at hfor
    simp only [translate, hnz, if_false, restrictDeltas, hra, htr, if_true, treeData,
      List.map_cons]
    exact ⟨by rw [hfor.1], by rw [hfor.2.1], hfor.2.2.1, hfor.2.2.2⟩

/-- The forest version of `translate_transition_tree`. -/
theorem translate_transition_forest (ts : List ElTree) (tx ty : ℚ) (opt : TranslateOpt)
    (htr : opt.transition = true) (hra : opt.restrictedArea = none)
    (hnz : ¬(tx = 0 ∧ ty = 0)) :
    (translateForest ts tx ty opt).1 = ts
    ∧ (translateForest ts tx ty opt).2.2
        = (forestData ts).map
            (fun e => Ev.transitionPosition e.id ⟨e.position.x + tx, e.position.y + ty⟩)
    ∧ (translateForest ts tx ty opt).2.1.transition = true
    ∧ (translateForest ts tx ty opt).2.1.restrictedArea = none := by
  cases ts with
  | nil => simp [translateForest, forestData, htr, hra]
  | cons t rest =>
    have h1 := translate_transition_tree t tx ty opt htr hra hnz
    have h2 := translate_transition_forest rest tx ty (translate t tx ty opt).2.1
      h1.2.2.1 h1.2.2.2 hnz
    simp only [translateForest, forestData, List.map_append]
    exact ⟨by rw [h1.1, h2.1], by rw [h1.2.1, h2.2.1], h2.2.2.1, h2.2.2.2⟩

end

/-- C5 counterexample: with a transition option, the embedded child does not
jump: its stored position stays (2, 3) instead of being set to (3, 3), and
the emitted effect for the child is a transition hand-off, not an immediate
set. -/
theorem translate_transition_descendants_cex :
    (rootData ((embedsOf (translate exPair 1 0 exTransOpt).1).headD exPair)).position
      = (⟨2, 3⟩ : Pt) ∧
    Ev.transitionPosition 1 ⟨3, 3⟩ ∈ (translate exPair 1 0 exTransOpt).2.2 ∧
    Ev.setPosition 1 ⟨3, 3⟩ ∉ (translate exPair 1 0 exTransOpt).2.2 := by
  refine ⟨?_, ?_, ?_⟩
  · norm_num [translate, translateForest, restrictDeltas, exPair, exTransOpt, rootData,
      embedsOf]
  · norm_num [translate, translateForest, restrictDeltas, exPair, exTransOpt, rootData,
      embedsOf]
  · norm_num [translate, translateForest, restrictDeltas, exPair, exTransOpt, rootData,
      embedsOf]
    exact ⟨fun h => (nomatch h), fun h => nomatch h⟩

/-- C5 (amended): when `options.transition` is set, the shared options object
propagates to every embedded descendant, so the transition branch is taken
by the root and by every descendant: no position is applied immediately and
each subtree element hands its target position to the transition driver. -/
theorem translate_transition_propagates_to_embeds (t : ElTree) (tx ty : ℚ)
    (opt : TranslateOpt)
    (htr : opt.transition = true) (hra : opt.restrictedArea = none)
    (hnz : ¬(tx = 0 ∧ ty = 0)) :
    (translate t tx ty opt).1 = t ∧
    (translate t tx ty opt).2.2
      = (treeData t).map
          (fun e => Ev.transitionPosition e.id ⟨e.position.x + tx, e.position.y + ty⟩) :=
  ⟨(translate_transition_tree t tx ty opt htr hra hnz).1,
   (translate_transition_tree t tx ty opt htr hra hnz).2.1⟩

/-- C5 witness: the amended transition statement applied to the concrete
two-element tree. -/
theorem translate_transition_propagates_witness :
    exTransOpt.transition = true ∧ ¬((1 : ℚ) = 0 ∧ (0 : ℚ) = 0) ∧
    ((translate exPair 1 0 exTransOpt).1 = exPair ∧
      (translate exPair 1 0 exTransOpt).2.2
        = (treeData exPair).map
            (fun e => Ev.transitionPosition e.id ⟨e.position.x + 1, e.position.y + 0⟩)) :=
  ⟨rfl, by norm_num,
    translate_transition_propagates_to_embeds exPair 1 0 exTransOpt rfl rfl (by norm_num)⟩

mutual

/-- Once the options object carries the initiator id, the applied deltas and
a translateBy value that is the id of no element of the forest, the
recursive translate calls leave it unchanged. -/
theorem translate_opt_stable_tree (t : ElTree) (tx ty : ℚ) (ora : Option Rectangle)
    (otr : Bool) (tb : ℕ)
    (hids : ∀ e ∈ treeData t, e.id ≠ tb) :
    (translate t tx ty ⟨some tb, ora, otr, some tx, some ty⟩).2.1
      = ⟨some tb, ora, otr, some tx, some ty⟩ := by
  cases t with
  | node d embeds =>
    by_cases hz : tx = 0 ∧ ty = 0
    · simp [translate, hz]
    · have hd : ¬(tb = d.id) := by
        intro h
        exact hids d (by simp [treeData]) h.symm
      have hrd : restrictDeltas (.node d embeds) tx ty ⟨some tb, ora, otr, some tx, some ty⟩
          = (tx, ty) := by
        unfold restrictDeltas
        cases ora with
        | none => rfl
        | some ra => simp [rootData, hd]
      have hfor := translate_opt_stable_forest embeds tx ty ora otr tb
        (fun e he => hids e (by simp [treeData]; exact Or.inr he))
      simp only [translate, hz, if_false, Option.getD_some, hrd]
      cases otr with
      | true => simpa using hfor
      | false => simpa using hfor

/-- The forest version of `translate_opt_stable_tree`. -/
theorem translate_opt_stable_forest (ts : List ElTree) (tx ty : ℚ) (ora : Option Rectangle)
    (otr : Bool) (tb : ℕ)
    (hids : ∀ e ∈ forestData ts, e.id ≠ tb) :
    (translateForest ts tx ty ⟨some tb, ora, otr, some tx, some ty⟩).2.1
      = ⟨some tb, ora, otr, some tx, some ty⟩ := by
  cases ts with
  | nil => simp [translateForest]
  | cons t rest =>
    have h1 := translate_opt_stable_tree t tx ty ora otr tb
      (fun e he => hids e (by simp [forestData]; exact Or.inl he))
    have h2 := translate_opt_stable_forest rest tx ty ora otr tb
      (fun e he => hids e (by simp [forestData]; exact Or.inr he))
    simp only [translateForest]
    rw [h1, h2]

end

/-- C10: a non-zero translate writes through the caller-supplied options
object: translateBy ends up holding the initiating id (the preset value when
present, the own id otherwise), and tx and ty record the actually applied
deltas, which are the restricted-area-clamped deltas; without a transition
the root position moves by exactly these recorded deltas. -/
theorem translate_mutates_caller_options (t : ElTree) (tx ty : ℚ) (opt : TranslateOpt)
    (hnz : ¬(tx = 0 ∧ ty = 0))
    (hids : ∀ e ∈ forestData (embedsOf t), e.id ≠ opt.translateBy.getD (rootData t).id) :
    (translate t tx ty opt).2.1 =
      { opt with
        translateBy := some (opt.translateBy.getD (rootData t).id),
        tx := some (restrictDeltas t tx ty
          { opt with translateBy := some (opt.translateBy.getD (rootData t).id) }).1,
        ty := some (restrictDeltas t tx ty
          { opt with translateBy := some (opt.translateBy.getD (rootData t).id) }).2 } ∧
    (opt.transition = false →
      (rootData (translate t tx ty opt).1).position =
        ⟨(rootData t).position.x + (restrictDeltas t tx ty
            { opt with translateBy := some (opt.translateBy.getD (rootData t).id) }).1,
          (rootData t).position.y + (restrictDeltas t tx ty
            { opt with translateBy := some (opt.translateBy.getD (rootData t).id) }).2⟩) := by
  cases t with
  | node d embeds =>
    obtain ⟨otb, ora, otr, otx, oty⟩ := opt
    simp only [rootData, embedsOf] at hids ⊢
    have hfor := translate_opt_stable_forest embeds
      (restrictDeltas (.node d embeds) tx ty ⟨some (otb.getD d.id), ora, otr, otx, oty⟩).1
      (restrictDeltas (.node d embeds) tx ty ⟨some (otb.getD d.id), ora, otr, otx, oty⟩).2
      ora otr (otb.getD d.id) hids
    simp only [translate, hnz, if_false]
    cases otr with
    | true =>
      refine ⟨?_, ?_⟩
      · simpa using hfor
      · intro h
        exact absurd h (by simp)
    | false =>
      refine ⟨?_, ?_⟩
      · simpa using hfor
      · intro h
        simp [rootData]

/-- C10 witness: the options mutation applied to the concrete two-element
tree with empty caller options. -/
theorem translate_mutates_caller_options_witness :
    ¬((3 : ℚ) = 0 ∧ (4 : ℚ) = 0) ∧
    (∀ e ∈ forestData (embedsOf exPair), e.id ≠ emptyOpt.translateBy.getD (rootData exPair).id) ∧
    (translate exPair 3 4 emptyOpt).2.1 =
      { emptyOpt with
        translateBy := some (emptyOpt.translateBy.getD (rootData exPair).id),
        tx := some (restrictDeltas exPair 3 4
          { emptyOpt with
            translateBy := some (emptyOpt.translateBy.getD (rootData exPair).id) }).1,
        ty := some (restrictDeltas exPair 3 4
          { emptyOpt with
            translateBy := some (emptyOpt.translateBy.getD (rootData exPair).id) }).2 } :=
  ⟨by norm_num,
   by simp [exPair, emptyOpt, embedsOf, forestData, treeData, rootData],
   (translate_mutates_caller_options exPair 3 4 emptyOpt (by norm_num)
      (by simp [exPair, emptyOpt, embedsOf, forestData, treeData, rootData])).1⟩

mutual

/-- fitEmbeds never fails on an attached element. -/
theorem fitEmbeds_attached_ok (opt : FitOpt) (t : ElTree) :
    ∃ r, fitEmbeds true opt t = .ok r := by
  cases t with
  | node d embeds =>
    by_cases hlen : 0 < embeds.length
    · cases hdeep : opt.deep with
      | false => simp [fitEmbeds, hlen, hdeep]
      | true =>
        obtain ⟨r, hr⟩ := fitEmbedsForest_attached_ok opt embeds
        simp [fitEmbeds, hlen, hdeep, hr]
    · simp [fitEmbeds, hlen]

/-- The forest version of `fitEmbeds_attached_ok`. -/
theorem fitEmbedsForest_attached_ok (opt : FitOpt) (ts : List ElTree) :
    ∃ r, fitEmbedsForest true opt ts = .ok r := by
  cases ts with
  | nil => simp [fitEmbedsForest]
  | cons t rest =>
    obtain ⟨r1, h1⟩ := fitEmbeds_attached_ok opt t
    obtain ⟨r2, h2⟩ := fitEmbedsForest_attached_ok opt rest
    simp [fitEmbedsForest, h1, h2]

end

/-- C8: requesting parentRelative positioning (getter or setter) or calling
fitEmbeds on an unattached element raises the unattached-element error;
these are the only failure conditions of the accessor family: without
parentRelative, position never fails on any attachment state, fitEmbeds
never fails on an attached element, and an attached element with no embedded
cells makes fitEmbeds a strict no-op. -/
theorem unattached_element_error_conditions :
    (∀ (pp : Option Pt) (cur : Pt) (o : PosOpt), o.parentRelative = true →
        positionGet false pp cur o = .error unattachedError) ∧
    (∀ (pp : Option Pt) (cur : Pt) (x y : ℚ) (o : PosOpt), o.parentRelative = true →
        positionSet false pp cur x y o = .error unattachedError) ∧
    (∀ (attached : Bool) (pp : Option Pt) (cur : Pt) (o : PosOpt), o.parentRelative = false →
        positionGet attached pp cur o = .ok cur) ∧
    (∀ (attached : Bool) (pp : Option Pt) (cur : Pt) (x y : ℚ) (o : PosOpt),
        o.parentRelative = false → ∃ r, positionSet attached pp cur x y o = .ok r) ∧
    (∀ (opt : FitOpt) (t : ElTree), fitEmbeds false opt t = .error unattachedError) ∧
    (∀ (opt : FitOpt) (d : ElData), fitEmbeds true opt (.node d []) = .ok (.node d [], [])) ∧
    (∀ (opt : FitOpt) (t : ElTree), ∃ r, fitEmbeds true opt t = .ok r) := by
  refine ⟨?_, ?_, ?_, ?_, ?_, ?_, fitEmbeds_attached_ok⟩
  · intro pp cur o h
    simp [positionGet, h]
  · intro pp cur x y o h
    simp [positionSet, h]
  · intro att pp cur o h
    simp [positionGet, h]
  · intro att pp cur x y o h
    cases hd : o.deep with
    | true => exact ⟨.deepTranslate (x - cur.x) (y - cur.y), by simp [positionSet, h, hd]⟩
    | false => exact ⟨.set ⟨x, y⟩, by simp [positionSet, h, hd]⟩
  · intro opt t
    cases t with
    | node d embeds => simp [fitEmbeds]
  · intro opt d
    simp [fitEmbeds]

/-- C8 witness: the error and no-op cases evaluated at concrete elements. -/
theorem unattached_element_error_conditions_witness :
    positionGet false none ⟨1, 2⟩ ⟨true, false⟩ = .error unattachedError ∧
    positionSet false none ⟨1, 2⟩ 3 4 ⟨true, false⟩ = .error unattachedError ∧
    positionGet true (some ⟨5, 6⟩) ⟨1, 2⟩ ⟨false, false⟩ = .ok ⟨1, 2⟩ ∧
    fitEmbeds false ⟨false, none⟩ exSingle = .error unattachedError ∧
    fitEmbeds true ⟨false, none⟩ (.node ⟨0, ⟨0, 0⟩, ⟨10, 10⟩, 0⟩ [])
      = .ok (.node ⟨0, ⟨0, 0⟩, ⟨10, 10⟩, 0⟩ [], []) :=
  ⟨unattached_element_error_conditions.1 none ⟨1, 2⟩ ⟨true, false⟩ rfl,
   unattached_element_error_conditions.2.1 none ⟨1, 2⟩ 3 4 ⟨true, false⟩ rfl,
   unattached_element_error_conditions.2.2.1 true (some ⟨5, 6⟩) ⟨1, 2⟩ ⟨false, false⟩ rfl,
   unattached_element_error_conditions.2.2.2.2.1 ⟨false, none⟩ exSingle,
   unattached_element_error_conditions.2.2.2.2.2.1 ⟨false, none⟩ ⟨0, ⟨0, 0⟩, ⟨10, 10⟩, 0⟩⟩

/-- C4 counterexample: `rotate(400, true)` stores the literal 400, so the
stored angle attribute does not lie in the half-open range [0, 360). -/
theorem rotate_stored_angle_cex :
    rotate 0 400 true = 400 ∧ ¬(rotate 0 400 true < 360) := by
  refine ⟨rfl, ?_⟩
  rw [rotate]
  norm_num

/-- C4 (amended): without an origin, rotate stores the literal value when
absolute and otherwise the JS remainder `(current + a) % 360`; the stored
value therefore lies in the open range (-360, 360) in the non-absolute case
but is not normalized into [0, 360), while the `angle()` accessor always
returns a value in [0, 360). -/
theorem rotate_stored_and_accessor_range (current a : ℚ) (absolute : Bool) :
    rotate current a absolute = (if absolute then a else jsMod (current + a) 360) ∧
    (-360 < jsMod (current + a) 360 ∧ jsMod (current + a) 360 < 360) ∧
    (0 ≤ angle current ∧ angle current < 360) := by
  refine ⟨rfl, ?_, ?_⟩
  · have h := jsMod_lt_of_pos (current + a) 360 (by norm_num)
    exact ⟨by linarith [h.1], h.2⟩
  · exact normalizeAngle_mem_Ico current

/-- For positive w, the cosine of arctan (h / w) is w over the length of the
(w, h) diagonal. -/
theorem cos_arctan_ratio (w h : ℝ) (hw : 0 < w) :
    Real.cos (Real.arctan (h / w)) = w / Real.sqrt (w * w + h * h) := by
  rw [Real.cos_arctan]
  have h1 : 1 + (h / w) ^ 2 = (w * w + h * h) / (w ^ 2) := by
    field_simp
    ring
  rw [h1, Real.sqrt_div (by nlinarith) (w ^ 2), Real.sqrt_sq hw.le]
  have hS : 0 < Real.sqrt (w * w + h * h) := Real.sqrt_pos.mpr (by nlinarith)
  field_simp

/-- For positive w, the sine of arctan (h / w) is h over the length of the
(w, h) diagonal. -/
theorem sin_arctan_ratio (w h : ℝ) (hw : 0 < w) :
    Real.sin (Real.arctan (h / w)) = h / Real.sqrt (w * w + h * h) := by
  rw [Real.sin_arctan]
  have h1 : 1 + (h / w) ^ 2 = (w * w + h * h) / (w ^ 2) := by
    field_simp
    ring
  rw [h1, Real.sqrt_div (by nlinarith) (w ^ 2), Real.sqrt_sq hw.le]
  have hS : 0 < Real.sqrt (w * w + h * h) := Real.sqrt_pos.mpr (by nlinarith)
  field_simp

/-- Rotating by the normalized angle is the same as rotating by the raw
angle: normalization changes the angle by a whole number of turns. -/
theorem rotateR_normalizeAngleR (p o : ℝ × ℝ) (a : ℝ) :
    rotateR p o (-(normalizeAngleR a)) = rotateR p o (-a) := by
  unfold rotateR normalizeAngleR
  have hc : Real.cos ((-(a - 360 * ((⌊a / 360⌋ : ℤ) : ℝ))) * Real.pi / 180)
      = Real.cos ((-a) * Real.pi / 180) := by
    have he : (-(a - 360 * ((⌊a / 360⌋ : ℤ) : ℝ))) * Real.pi / 180
        = (-a) * Real.pi / 180 + ((⌊a / 360⌋ : ℤ) : ℝ) * (2 * Real.pi) := by ring
    rw [he, Real.cos_add_int_mul_two_pi]
  have hs : Real.sin ((-(a - 360 * ((⌊a / 360⌋ : ℤ) : ℝ))) * Real.pi / 180)
      = Real.sin ((-a) * Real.pi / 180) := by
    have he : (-(a - 360 * ((⌊a / 360⌋ : ℤ) : ℝ))) * Real.pi / 180
        = (-a) * Real.pi / 180 + ((⌊a / 360⌋ : ℤ) : ℝ) * (2 * Real.pi) := by ring
    rw [he, Real.sin_add_int_mul_two_pi]
  rw [hc, hs]

set_option maxHeartbeats 1000000 in
/-- The geometric heart of the anchored resize: the quadrant corner of the
box of size W by H whose center is reconstructed from the image fixed point
by the polar offset of the half-diagonal at the alpha angle of source lines
257-265 rotates (by the same angle the element is rotated by) back onto the
image fixed point. -/
theorem anchored_corner_fixed (Fx Fy θ W H : ℝ) (q : ℤ)
    (hq : q = 0 ∨ q = 1 ∨ q = 2 ∨ q = 3) (hw : 0 < W) (hh : 0 < H)
    (Cx Cy : ℝ)
    (hCx : Cx = (fromPolarR (Real.sqrt (W * W + H * H) / 2)
        ((q : ℝ) * (Real.pi / 2)
          + (if q % 2 = 0 then Real.arctan (H / W) else Real.arctan (W / H))
          - θ * Real.pi / 180) (Fx, Fy)).1)
    (hCy : Cy = (fromPolarR (Real.sqrt (W * W + H * H) / 2)
        ((q : ℝ) * (Real.pi / 2)
          + (if q % 2 = 0 then Real.arctan (H / W) else Real.arctan (W / H))
          - θ * Real.pi / 180) (Fx, Fy)).2) :
    rotateR (cornerOf (Cx - W / 2) (Cy - H / 2) W H q)
      (Cx - W / 2 + W / 2, Cy - H / 2 + H / 2) (-θ)
      = (Fx, Fy) := by
  have hWW : (0:ℝ) < W * W + H * H := by nlinarith
  have hS : 0 < Real.sqrt (W * W + H * H) := Real.sqrt_pos.mpr hWW
  have hSne : Real.sqrt (W * W + H * H) ≠ 0 := ne_of_gt hS
  have hc1 := cos_arctan_ratio W H hw
  have hs1 := sin_arctan_ratio W H hw
  have hc2 := cos_arctan_ratio H W hh
  have hs2 := sin_arctan_ratio H W hh
  rw [show H * H + W * W = W * W + H * H from by ring] at hc2 hs2
  rcases hq with rfl | rfl | rfl | rfl
  · subst hCx hCy
    norm_num [fromPolarR, cornerOf, rotateR]
    rw [show -(θ * Real.pi) / 180 = -(θ * Real.pi / 180) from by ring, Real.cos_neg,
      Real.sin_neg, Real.cos_sub, Real.sin_sub, hc1, hs1]
    constructor
    · field_simp
      ring
    · field_simp
      ring
  · subst hCx hCy
    norm_num [fromPolarR, cornerOf, rotateR]
    rw [show -(θ * Real.pi) / 180 = -(θ * Real.pi / 180) from by ring, Real.cos_neg,
      Real.sin_neg,
      show Real.pi / 2 + Real.arctan (W / H) - θ * Real.pi / 180
        = Real.pi / 2 + (Real.arctan (W / H) - θ * Real.pi / 180) from by ring,
      Real.cos_add, Real.sin_add, Real.cos_pi_div_two, Real.sin_pi_div_two,
      Real.cos_sub, Real.sin_sub, hc2, hs2]
    constructor
    · field_simp
      ring
    · field_simp
      ring
  · subst hCx hCy
    norm_num [fromPolarR, cornerOf, rotateR]
    rw [show -(θ * Real.pi) / 180 = -(θ * Real.pi / 180) from by ring, Real.cos_neg,
      Real.sin_neg,
      show 2 * (Real.pi / 2) + Real.arctan (H / W) - θ * Real.pi / 180
        = Real.pi + (Real.arctan (H / W) - θ * Real.pi / 180) from by ring,
      Real.cos_add, Real.sin_add, Real.cos_pi, Real.sin_pi,
      Real.cos_sub, Real.sin_sub, hc1, hs1]
    constructor
    · field_simp
      ring
    · field_simp
      ring
  · subst hCx hCy
    norm_num [fromPolarR, cornerOf, rotateR]
    rw [show -(θ * Real.pi) / 180 = -(θ * Real.pi / 180) from by ring, Real.cos_neg,
      Real.sin_neg,
      show 3 * (Real.pi / 2) + Real.arctan (W / H) - θ * Real.pi / 180
        = Real.pi + (Real.pi / 2 + (Real.arctan (W / H) - θ * Real.pi / 180)) from by ring,
      Real.cos_add Real.pi, Real.sin_add Real.pi, Real.cos_pi, Real.sin_pi,
      Real.cos_add, Real.sin_add, Real.cos_pi_div_two, Real.sin_pi_div_two,
      Real.cos_sub, Real.sin_sub, hc2, hs2]
    constructor
    · field_simp
      ring
    · field_simp
      ring

/-- C1: an anchored resize with a recognized direction (and without the
absolute option) keeps the world-space location of the quadrant corner: the
designated corner of the new box, rotated by the negated element angle about
the new center, coincides with the designated corner of the old box rotated
by the same angle about the old center — for every position, every current
angle and every positive pair of effective new dimensions; in particular the
concrete right-anchored resize of a 10 by 10 element at the origin to 20 by
10 at angle 0 keeps position (0, 0) and yields size (20, 10). -/
theorem resize_direction_keeps_anchor_corner :
    (∀ (px py w0 h0 a w h : ℝ) (d : String) (q : ℤ) (p2 s2 : ℝ × ℝ),
      quadrantTable d = some q →
      0 < (if d = "top" ∨ d = "bottom" then w0 else w) →
      0 < (if d = "left" ∨ d = "right" then h0 else h) →
      resize (px, py) (w0, h0) a w h (some d) false = some (p2, s2) →
      rotateR (cornerOf p2.1 p2.2 s2.1 s2.2 q) (p2.1 + s2.1 / 2, p2.2 + s2.2 / 2) (-a)
        = rotateR (cornerOf px py w0 h0 q) (px + w0 / 2, py + h0 / 2) (-a)) ∧
    resize ((0 : ℝ), (0 : ℝ)) (10, 10) 0 20 10 (some "right") false
      = some ((0, 0), (20, 10)) := by
  constructor
  · intro px py w0 h0 a w h d q p2 s2 hq hw hh hres
    have hne : ¬(d = "") := by
      intro he
      rw [he] at hq
      simp [quadrantTable] at hq
    have hq4 : q = 0 ∨ q = 1 ∨ q = 2 ∨ q = 3 := by
      unfold quadrantTable at hq
      split_ifs at hq <;> simp_all
    simp only [resize, if_neg hne, hq, Bool.false_eq_true, if_false] at hres
    rw [Option.some.injEq, Prod.mk.injEq] at hres
    obtain ⟨hp2, hs2⟩ := hres
    subst hp2
    subst hs2
    rw [← rotateR_normalizeAngleR _ _ a, ← rotateR_normalizeAngleR _ _ a]
    exact anchored_corner_fixed _ _ (normalizeAngleR a) _ _ q hq4 hw hh _ _ rfl rfl
  · have hS : Real.sqrt 500 ≠ 0 := by
      have h0 : (0:ℝ) < 500 := by norm_num
      exact ne_of_gt (Real.sqrt_pos.mpr h0)
    have hc : Real.cos (Real.arctan ((1:ℝ) / 2)) = 20 / Real.sqrt 500 := by
      have h1 := cos_arctan_ratio 20 10 (by norm_num)
      norm_num at h1
      exact h1
    have hs : Real.sin (Real.arctan ((1:ℝ) / 2)) = 10 / Real.sqrt 500 := by
      have h1 := sin_arctan_ratio 20 10 (by norm_num)
      norm_num at h1
      exact h1
    have e1 : ¬("right" = "") := by decide
    have e2 : ¬("right" = "top" ∨ "right" = "bottom") := by decide
    have e3 : ("right" = "left" ∨ "right" = "right") := by decide
    have e4 : ("right" = "top-right" ∨ "right" = "right") := by decide
    norm_num [resize, quadrantTable, normalizeAngleR, fromPolarR, rotateR, cornerOf,
      e1, e2, e3, e4, hc, hs]

/-- C1 witness: the anchor preservation applied to the right-anchored
example resize (quadrant 0, angle 0, new size 20 by 10). -/
theorem resize_direction_keeps_anchor_corner_witness :
    quadrantTable "right" = some 0 ∧
    (0:ℝ) < (if "right" = "top" ∨ "right" = "bottom" then (10:ℝ) else 20) ∧
    (0:ℝ) < (if "right" = "left" ∨ "right" = "right" then (10:ℝ) else 10) ∧
    rotateR (cornerOf ((0:ℝ), (0:ℝ)).1 ((0:ℝ), (0:ℝ)).2 ((20:ℝ), (10:ℝ)).1
        ((20:ℝ), (10:ℝ)).2 0)
      (((0:ℝ), (0:ℝ)).1 + ((20:ℝ), (10:ℝ)).1 / 2,
        ((0:ℝ), (0:ℝ)).2 + ((20:ℝ), (10:ℝ)).2 / 2) (-0)
      = rotateR (cornerOf (0:ℝ) 0 10 10 0) ((0:ℝ) + 10 / 2, (0:ℝ) + 10 / 2) (-0) :=
  ⟨by simp [quadrantTable],
   by rw [if_neg (by decide : ¬("right" = "top" ∨ "right" = "bottom"))]; norm_num,
   by rw [if_pos (by decide : ("right" = "left" ∨ "right" = "right"))]; norm_num,
   resize_direction_keeps_anchor_corner.1 0 0 10 10 0 20 10 "right" 0 ((0:ℝ), (0:ℝ))
     ((20:ℝ), (10:ℝ)) (by simp [quadrantTable])
     (by rw [if_neg (by decide : ¬("right" = "top" ∨ "right" = "bottom"))]; norm_num)
     (by rw [if_pos (by decide : ("right" = "left" ∨ "right" = "right"))]; norm_num)
     resize_direction_keeps_anchor_corner.2⟩

/-- C6 counterexample: resize with the unrecognized truthy direction
"diagonal" does not behave like the unanchored path (which would keep the
position and overwrite the size): the quadrant lookup yields no corner
accessor and the call fails. -/
theorem resize_unrecognized_direction_cex :
    resize ((0:ℝ), (0:ℝ)) (10, 10) 0 20 10 (some "diagonal") false = none ∧
    (none : Option ((ℝ × ℝ) × (ℝ × ℝ))) ≠ some (((0:ℝ), (0:ℝ)), (20, 10)) := by
  constructor
  · simp [resize, quadrantTable]
  · simp

/-- C6 (amended): a present but falsy direction (the empty string) falls
through to the unanchored path, which overwrites the size and keeps the
position; a truthy direction absent from the quadrant table does not fall
through: the corner accessor is undefined and the call fails with a
TypeError. -/
theorem resize_unrecognized_direction (pos size : ℝ × ℝ) (a w h : ℝ) (b : Bool) :
    resize pos size a w h (some "") b = some (pos, (w, h)) ∧
    (∀ d : String, ¬(d = "") → quadrantTable d = none →
      resize pos size a w h (some d) b = none) := by
  constructor
  · simp [resize]
  · intro d hd hq
    simp [resize, hd, hq]

/-- C6 witness: the empty direction falls through, the direction "diagonal"
fails. -/
theorem resize_unrecognized_direction_witness :
    ¬(("diagonal" : String) = "") ∧ quadrantTable "diagonal" = none ∧
    resize ((1:ℝ), (2:ℝ)) (3, 4) 5 6 7 (some "") true = some (((1:ℝ), (2:ℝ)), (6, 7)) ∧
    resize ((1:ℝ), (2:ℝ)) (3, 4) 5 6 7 (some "diagonal") true = none :=
  ⟨by decide, by simp [quadrantTable],
   (resize_unrecognized_direction ((1:ℝ), (2:ℝ)) (3, 4) 5 6 7 true).1,
   (resize_unrecognized_direction ((1:ℝ), (2:ℝ)) (3, 4) 5 6 7 true).2 "diagonal"
     (by decide) (by simp [quadrantTable])⟩

end Joint
